import Mathlib

/-!
Verification of the metadata-row merge / filter / pagination logic of
`AssetEventMetadataEntriesTable.tsx` (dagster-ui).

The component's computational core is embedded shallowly:
* `allRows` — the `useMemo` that tags event / observation / definition
  metadata entries with provenance and de-duplicates by label (`uniqBy`);
* `filteredRows` — the two chained `.filter` calls (substring match on the
  label, then the hidden-label / column-schema / column-lineage exclusions);
* `paginate` — `filteredRows.slice(0, displayedCount)` together with the
  "Show N more" remainder;
* `renderTable` — the empty-state short-circuit and the
  "No metadata entries" placeholder branch;
* `applyShowAction` — the `displayedCount` state transitions
  (`setDisplayedCount(Number.MAX_SAFE_INTEGER)` / `setDisplayedCount(displayedByDefault)`).

External collaborators (`HIDDEN_METADATA_ENTRY_LABELS`,
`isCanonicalColumnSchemaEntry`, `isCanonicalColumnLineageEntry`, the empty
state node) are parameters: the component only calls them.
-/

namespace AssetEventMetadata

/-- A JS `string | number` timestamp value. -/
inductive TimeVal where
  | str (s : String)
  | num (n : Int)
deriving DecidableEq

/-- A metadata entry as seen by this component: only `label` and
`description` are inspected; the renderable value is opaque. -/
structure MetadataEntryF where
  label : String
  description : Option String := none
deriving DecidableEq

/-- The `TableEvent` shape: `metadataEntries` plus optional `timestamp`
and `runId` (`runOrError` is not used by the merge/filter logic). -/
structure TableEventF where
  timestamp : Option TimeVal := none
  runId : Option String := none
  metadataEntries : List MetadataEntryF := []
deriving DecidableEq

/-- Provenance icon attached to each row (`'materialization'`,
`'observation'`, `'asset'` in the source). -/
inductive RowIcon where
  | materialization
  | observation
  | asset
deriving DecidableEq

/-- A tagged row of the merged table. -/
structure Row where
  icon : RowIcon
  timestamp : Option TimeVal := none
  runId : Option String := none
  entry : MetadataEntryF
deriving DecidableEq

/-- `eventRows`: rows derived from the current event; `runId` is set to
`null` in the source regardless of `event.runId`. -/
def eventRows (event : Option TableEventF) : List Row :=
  match event with
  | some e => e.metadataEntries.map (fun entry =>
      { icon := .materialization, timestamp := e.timestamp, runId := none, entry := entry })
  | none => []

/-- `observationRows`: `(observations || []).flatMap(...)`, each row
carrying its source observation's `timestamp` and `runId`. -/
def observationRows (observations : Option (List TableEventF)) : List Row :=
  (observations.getD []).flatMap (fun o =>
    o.metadataEntries.map (fun entry =>
      { icon := .observation, timestamp := o.timestamp, runId := o.runId, entry := entry }))

/-- `definitionRows`: `(definitionMetadata || []).map(...)` with the
definition-load timestamp and `runId: null`. -/
def definitionRows (definitionMetadata : Option (List MetadataEntryF))
    (definitionLoadTimestamp : Option TimeVal) : List Row :=
  (definitionMetadata.getD []).map (fun entry =>
    { icon := .asset, timestamp := definitionLoadTimestamp, runId := none, entry := entry })

/-- lodash `uniqBy` worker: walk left to right, keep an element iff its
key has not been seen yet. -/
def uniqByAux (f : α → β) [DecidableEq β] : List α → List β → List α
  | [], _ => []
  | x :: xs, seen =>
    if f x ∈ seen then uniqByAux f xs seen
    else x :: uniqByAux f xs (f x :: seen)

/-- lodash `uniqBy`: de-duplicate by key, first occurrence wins. -/
def uniqBy (f : α → β) [DecidableEq β] (xs : List α) : List α :=
  uniqByAux f xs []

/-- The `allRows` memo: concatenate observation, event and definition rows
in that order, then `uniqBy` on `entry.label`. -/
def allRows (event : Option TableEventF) (observations : Option (List TableEventF))
    (definitionMetadata : Option (List MetadataEntryF))
    (definitionLoadTimestamp : Option TimeVal) : List Row :=
  uniqBy (fun e => e.entry.label)
    (observationRows observations ++ eventRows event ++
      definitionRows definitionMetadata definitionLoadTimestamp)

/-- `haystack.includes(needle)` on character lists. -/
def containsSub (pat : List Char) : List Char → Bool
  | [] => pat.isEmpty
  | c :: rest => List.isPrefixOf pat (c :: rest) || containsSub pat rest

/-- JS `String.prototype.includes`. -/
def strContains (s pat : String) : Bool :=
  containsSub pat.data s.data

/-- JS `String.prototype.toLowerCase`: lower-case every character. -/
def toLowerStr (s : String) : String :=
  String.mk (s.data.map Char.toLower)

/-- First `.filter` stage:
`!filter || row.entry.label.toLowerCase().includes(filter.toLowerCase())`.
JS `!filter` is true exactly for the empty string. -/
def textFilteredRows (rows : List Row) (filterText : String) : List Row :=
  rows.filter (fun row =>
    filterText.isEmpty || strContains (toLowerStr row.entry.label) (toLowerStr filterText))

/-- Second `.filter` stage: drop hidden labels, column-schema entries when
`hideTableSchema`, and column-lineage entries unconditionally. -/
def exclusionPred (hiddenLabels : List String)
    (isCanonicalColumnSchemaEntry isCanonicalColumnLineageEntry : MetadataEntryF → Bool)
    (hideTableSchema : Bool) (row : Row) : Bool :=
  !(hiddenLabels.contains row.entry.label) &&
    !(isCanonicalColumnSchemaEntry row.entry && hideTableSchema) &&
    !(isCanonicalColumnLineageEntry row.entry)

/-- The `filteredRows` memo: both `.filter` calls, in source order. -/
def filteredRows (rows : List Row) (filterText : String) (hiddenLabels : List String)
    (isCanonicalColumnSchemaEntry isCanonicalColumnLineageEntry : MetadataEntryF → Bool)
    (hideTableSchema : Bool) : List Row :=
  (textFilteredRows rows filterText).filter
    (exclusionPred hiddenLabels isCanonicalColumnSchemaEntry isCanonicalColumnLineageEntry
      hideTableSchema)

/-- JS `Number.MAX_SAFE_INTEGER`, the "show all" sentinel. -/
def maxSafeInteger : Nat := 2 ^ 53 - 1

/-- `filteredRows.slice(0, displayedCount)` plus the "Show N more"
remainder (`filteredRows.length - displayedCount` when the button shows,
`0` otherwise). -/
def paginate (rows : List Row) (displayedCount : Nat) : List Row × Nat :=
  (rows.take displayedCount,
    if displayedCount < rows.length then rows.length - displayedCount else 0)

/-- Initial `displayedCount` state (`useState(displayedByDefault)`). -/
def initialDisplayedCount (displayedByDefault : Nat) : Nat :=
  displayedByDefault

/-- The two user actions on `displayedCount`. -/
inductive ShowAction where
  | more
  | less
deriving DecidableEq

/-- `setDisplayedCount(Number.MAX_SAFE_INTEGER)` on "Show N more",
`setDisplayedCount(displayedByDefault)` on "Show less". -/
def applyShowAction (displayedByDefault : Nat) : Nat → ShowAction → Nat
  | _, .more => maxSafeInteger
  | _, .less => displayedByDefault

/-- The observable table-view outcome: either the caller-supplied empty
state verbatim, or a table whose `placeholder` flag records the
"No metadata entries" row. -/
inductive RenderOutcome (α : Type) where
  | emptyStateView (es : α)
  | table (body : List Row) (placeholder : Bool)
deriving DecidableEq

/-- The component's table rendering decision:
`if (emptyState && allRows.length === 0) return emptyState;` then the
table with a placeholder row when `filteredRows.length === 0`, showing
`filteredRows.slice(0, displayedCount)`. -/
def renderTable {α : Type} (event : Option TableEventF)
    (observations : Option (List TableEventF))
    (definitionMetadata : Option (List MetadataEntryF))
    (definitionLoadTimestamp : Option TimeVal) (filterText : String)
    (hiddenLabels : List String)
    (isCanonicalColumnSchemaEntry isCanonicalColumnLineageEntry : MetadataEntryF → Bool)
    (hideTableSchema : Bool) (emptyState : Option α)
    (displayedCount : Nat) : RenderOutcome α :=
  let all := allRows event observations definitionMetadata definitionLoadTimestamp
  let fr := filteredRows all filterText hiddenLabels isCanonicalColumnSchemaEntry
    isCanonicalColumnLineageEntry hideTableSchema
  match emptyState with
  | some es => if all.length = 0 then .emptyStateView es
      else .table (fr.take displayedCount) fr.isEmpty
  | none => .table (fr.take displayedCount) fr.isEmpty

/-! ### Lemmas about `uniqBy` -/

theorem uniqByAux_sublist (f : α → β) [DecidableEq β] (xs : List α) :
    ∀ seen, List.Sublist (uniqByAux f xs seen) xs := by
  induction xs with
  | nil => intro seen; simp [uniqByAux]
  | cons x xs ih =>
    intro seen
    unfold uniqByAux
    split
    · exact (ih _).cons x
    · exact (ih _).cons₂ x

theorem uniqBy_sublist (f : α → β) [DecidableEq β] (xs : List α) :
    List.Sublist (uniqBy f xs) xs :=
  uniqByAux_sublist f xs []

theorem not_seen_of_mem_uniqByAux (f : α → β) [DecidableEq β] (xs : List α) :
    ∀ seen r, r ∈ uniqByAux f xs seen → f r ∉ seen := by
  induction xs with
  | nil => intro seen r h; simp [uniqByAux] at h
  | cons x xs ih =>
    intro seen r h
    unfold uniqByAux at h
    split at h
    · exact ih seen r h
    · rcases List.mem_cons.1 h with rfl | h2
      · assumption
      · intro hmem
        exact ih _ r h2 (List.mem_cons_of_mem _ hmem)

theorem nodup_keys_uniqByAux (f : α → β) [DecidableEq β] (xs : List α) :
    ∀ seen, ((uniqByAux f xs seen).map f).Nodup := by
  induction xs with
  | nil => intro seen; simp [uniqByAux]
  | cons x xs ih =>
    intro seen
    unfold uniqByAux
    split
    · exact ih seen
    · simp only [List.map_cons, List.nodup_cons]
      refine ⟨fun hmem => ?_, ih _⟩
      rcases List.mem_map.1 hmem with ⟨r, hr, hf⟩
      exact not_seen_of_mem_uniqByAux f xs _ r hr (by simp [hf])

theorem nodup_keys_uniqBy (f : α → β) [DecidableEq β] (xs : List α) :
    ((uniqBy f xs).map f).Nodup :=
  nodup_keys_uniqByAux f xs []

theorem mem_uniqByAux_iff (f : α → β) [DecidableEq β] (xs : List α) :
    ∀ seen r, f r ∉ seen →
      (r ∈ uniqByAux f xs seen ↔ xs.find? (fun y => f y == f r) = some r) := by
  induction xs with
  | nil => intro seen r _; simp [uniqByAux]
  | cons x xs ih =>
    intro seen r h
    unfold uniqByAux
    by_cases hx : f x ∈ seen
    · rw [if_pos hx]
      have hne : f x ≠ f r := fun he => h (he ▸ hx)
      rw [List.find?_cons_of_neg _ (by simp [hne])]
      exact ih seen r h
    · rw [if_neg hx]
      by_cases hxr : f x = f r
      · rw [List.find?_cons_of_pos _ (by simp [hxr])]
        simp only [List.mem_cons, Option.some.injEq]
        constructor
        · rintro (rfl | hmem)
          · rfl
          · exact absurd (by simp [hxr] : f r ∈ f x :: seen)
              (not_seen_of_mem_uniqByAux f xs _ r hmem)
        · rintro rfl; exact Or.inl rfl
      · rw [List.find?_cons_of_neg _ (by simp [hxr])]
        rw [List.mem_cons]
        have hnotin : f r ∉ f x :: seen := by
          simp only [List.mem_cons]
          rintro (he | hmem)
          · exact hxr (Eq.symm he)
          · exact h hmem
        constructor
        · rintro (rfl | hmem)
          · exact absurd rfl hxr
          · exact (ih _ r hnotin).1 hmem
        · intro hfind
          exact Or.inr ((ih (f x :: seen) r hnotin).2 hfind)

theorem mem_uniqBy_iff (f : α → β) [DecidableEq β] (xs : List α) (r : α) :
    r ∈ uniqBy f xs ↔ xs.find? (fun y => f y == f r) = some r :=
  mem_uniqByAux_iff f xs [] r (by simp)

/-! ### Lemmas about the three provenance tiers -/

theorem mem_eventRows {event : Option TableEventF} {r : Row}
    (h : r ∈ eventRows event) :
    r.icon = RowIcon.materialization ∧ r.runId = none := by
  cases event with
  | none => simp [eventRows] at h
  | some e =>
    simp only [eventRows, List.mem_map] at h
    rcases h with ⟨entry, _, rfl⟩
    exact ⟨rfl, rfl⟩

theorem mem_definitionRows {dm : Option (List MetadataEntryF)} {dts : Option TimeVal}
    {r : Row} (h : r ∈ definitionRows dm dts) :
    r.icon = RowIcon.asset ∧ r.runId = none := by
  simp only [definitionRows, List.mem_map] at h
  rcases h with ⟨entry, _, rfl⟩
  exact ⟨rfl, rfl⟩

theorem mem_observationRows {obs : Option (List TableEventF)} {r : Row}
    (h : r ∈ observationRows obs) :
    r.icon = RowIcon.observation ∧
      ∃ o ∈ obs.getD [], r.runId = o.runId ∧ r.entry ∈ o.metadataEntries := by
  simp only [observationRows, List.mem_flatMap, List.mem_map] at h
  rcases h with ⟨o, ho, entry, hentry, rfl⟩
  exact ⟨rfl, o, ho, rfl, hentry⟩

/-- The concatenation the component builds before de-duplicating. -/
def concatRows (event : Option TableEventF) (observations : Option (List TableEventF))
    (definitionMetadata : Option (List MetadataEntryF))
    (definitionLoadTimestamp : Option TimeVal) : List Row :=
  observationRows observations ++ eventRows event ++
    definitionRows definitionMetadata definitionLoadTimestamp

theorem allRows_eq_uniqBy_concatRows (event : Option TableEventF)
    (observations : Option (List TableEventF))
    (definitionMetadata : Option (List MetadataEntryF))
    (definitionLoadTimestamp : Option TimeVal) :
    allRows event observations definitionMetadata definitionLoadTimestamp =
      uniqBy (fun e => e.entry.label)
        (concatRows event observations definitionMetadata definitionLoadTimestamp) :=
  rfl

theorem allRows_sublist_concatRows (event : Option TableEventF)
    (observations : Option (List TableEventF))
    (definitionMetadata : Option (List MetadataEntryF))
    (definitionLoadTimestamp : Option TimeVal) :
    List.Sublist (allRows event observations definitionMetadata definitionLoadTimestamp)
      (concatRows event observations definitionMetadata definitionLoadTimestamp) :=
  uniqBy_sublist _ _

example :
    (allRows
      (some { metadataEntries := [{ label := "a" }, { label := "b" }] })
      (some [{ metadataEntries := [{ label := "b" }, { label := "c" }] }])
      (some [{ label := "a" }, { label := "d" }])
      none).map (fun r => r.entry.label) = ["b", "c", "a", "d"] := by
  decide

/-! ### Small generic helpers -/

theorem mem_left_of_find?_append {l₁ l₂ : List α} {p : α → Bool} {r : α}
    (hfind : (l₁ ++ l₂).find? p = some r) (hex : ∃ x ∈ l₁, p x) : r ∈ l₁ := by
  rw [List.find?_append] at hfind
  rcases Option.isSome_iff_exists.1 (List.find?_isSome.2 hex) with ⟨y, hy⟩
  rw [hy] at hfind
  simp only [Option.or_some, Option.some.injEq] at hfind
  exact hfind ▸ List.mem_of_find?_eq_some hy

theorem containsSub_nil (l : List Char) : containsSub [] l = true := by
  cases l <;> simp [containsSub, List.isPrefixOf]

theorem strContains_empty (s : String) : strContains s "" = true :=
  containsSub_nil s.data

/-- Example entry used in concrete witnesses. -/
def sampleEntry (l : String) : MetadataEntryF :=
  { label := l }

/-- Example row used in concrete witnesses. -/
def sampleRow (l : String) : Row :=
  { icon := RowIcon.materialization, entry := sampleEntry l }

/-! ### Claim theorems -/

/-- C1: `allRows` is the concatenation of observation-derived, then
event-derived, then definition-derived rows, de-duplicated by entry label
keeping the first occurrence in that order: a row survives iff it is the
`find?`-first row of its label in the concatenation. Consequently, for a
shared label the observation row wins over the event row, and an
observation-or-event row wins over the definition row. -/
theorem c1_merge_dedup_precedence (event : Option TableEventF)
    (observations : Option (List TableEventF))
    (dm : Option (List MetadataEntryF)) (dts : Option TimeVal) :
    (∀ r, r ∈ allRows event observations dm dts ↔
        (concatRows event observations dm dts).find?
          (fun y => y.entry.label == r.entry.label) = some r)
    ∧ (∀ r ∈ allRows event observations dm dts,
        (∃ ro ∈ observationRows observations, ro.entry.label = r.entry.label) →
          r ∈ observationRows observations)
    ∧ (∀ r ∈ allRows event observations dm dts,
        (∃ re ∈ observationRows observations ++ eventRows event,
            re.entry.label = r.entry.label) →
          r ∈ observationRows observations ++ eventRows event) := by
  have hiff := fun r => mem_uniqBy_iff (fun e : Row => e.entry.label)
    (concatRows event observations dm dts) r
  refine ⟨hiff, ?_, ?_⟩
  · intro r hr hex
    have hfind := (hiff r).1 hr
    unfold concatRows at hfind
    rw [List.append_assoc] at hfind
    refine mem_left_of_find?_append hfind ?_
    rcases hex with ⟨ro, hro, hlab⟩
    exact ⟨ro, hro, by simp [hlab]⟩
  · intro r hr hex
    have hfind := (hiff r).1 hr
    unfold concatRows at hfind
    refine mem_left_of_find?_append hfind ?_
    rcases hex with ⟨re, hre, hlab⟩
    exact ⟨re, hre, by simp [hlab]⟩

/-- C1 witness: in the spec's own scenario (event `[a, b]`, one
observation `[b, c]`, definition `[a, d]`), the surviving row with label
`b` is the observation row. -/
theorem c1_merge_dedup_precedence_witness :
    ({ icon := RowIcon.observation, entry := sampleEntry "b" } : Row) ∈
      observationRows (some [{ metadataEntries := [sampleEntry "b", sampleEntry "c"] }]) :=
  (c1_merge_dedup_precedence
      (some { metadataEntries := [sampleEntry "a", sampleEntry "b"] })
      (some [{ metadataEntries := [sampleEntry "b", sampleEntry "c"] }])
      (some [sampleEntry "a", sampleEntry "d"]) none).2.1
    { icon := RowIcon.observation, entry := sampleEntry "b" }
    (by decide)
    ⟨{ icon := RowIcon.observation, entry := sampleEntry "b" }, by decide, rfl⟩

/-- C2: with absent inputs treated as empty sequences, the merge result's
length is at most the total input row count, its labels are pairwise
distinct, and the relative order of the rows of each provenance tier is
preserved (the tier's surviving rows form a sublist of the tier's input
rows). -/
theorem c2_merge_invariants (event : Option TableEventF)
    (observations : Option (List TableEventF))
    (dm : Option (List MetadataEntryF)) (dts : Option TimeVal) :
    (allRows event observations dm dts).length ≤
        (observationRows observations).length + (eventRows event).length +
          (definitionRows dm dts).length
    ∧ ((allRows event observations dm dts).map (fun r => r.entry.label)).Nodup
    ∧ List.Sublist ((allRows event observations dm dts).filter
        (fun r => r.icon == RowIcon.observation)) (observationRows observations)
    ∧ List.Sublist ((allRows event observations dm dts).filter
        (fun r => r.icon == RowIcon.materialization)) (eventRows event)
    ∧ List.Sublist ((allRows event observations dm dts).filter
        (fun r => r.icon == RowIcon.asset)) (definitionRows dm dts) := by
  have hsub := allRows_sublist_concatRows event observations dm dts
  have hobs : (concatRows event observations dm dts).filter
      (fun r => r.icon == RowIcon.observation) = observationRows observations := by
    unfold concatRows
    rw [List.filter_append, List.filter_append,
      List.filter_eq_self.2 (fun a ha => by simp [(mem_observationRows ha).1]),
      List.filter_eq_nil_iff.2 (fun a ha => by simp [(mem_eventRows ha).1]),
      List.filter_eq_nil_iff.2 (fun a ha => by simp [(mem_definitionRows ha).1])]
    simp
  have hev : (concatRows event observations dm dts).filter
      (fun r => r.icon == RowIcon.materialization) = eventRows event := by
    unfold concatRows
    rw [List.filter_append, List.filter_append,
      List.filter_eq_nil_iff.2 (fun a ha => by simp [(mem_observationRows ha).1]),
      List.filter_eq_self.2 (fun a ha => by simp [(mem_eventRows ha).1]),
      List.filter_eq_nil_iff.2 (fun a ha => by simp [(mem_definitionRows ha).1])]
    simp
  have hdef : (concatRows event observations dm dts).filter
      (fun r => r.icon == RowIcon.asset) = definitionRows dm dts := by
    unfold concatRows
    rw [List.filter_append, List.filter_append,
      List.filter_eq_nil_iff.2 (fun a ha => by simp [(mem_observationRows ha).1]),
      List.filter_eq_nil_iff.2 (fun a ha => by simp [(mem_eventRows ha).1]),
      List.filter_eq_self.2 (fun a ha => by simp [(mem_definitionRows ha).1])]
    simp
  refine ⟨?_, nodup_keys_uniqBy _ _, ?_, ?_, ?_⟩
  · have hlen := hsub.length_le
    unfold concatRows at hlen
    simp only [List.length_append] at hlen
    omega
  · exact hobs ▸ hsub.filter _
  · exact hev ▸ hsub.filter _
  · exact hdef ▸ hsub.filter _

/-- C3 counterexample: with a single row labelled `"a"` and the
whitespace-only filter text `" "`, the substring-match step removes the
row — a whitespace-only filter text is not treated as "no filter"
(JS `!filter` is false for a non-empty whitespace string). -/
theorem c3_whitespace_counterexample :
    textFilteredRows [sampleRow "a"] " " = [] := by
  decide

/-- C3 (amended): only the empty filter text is treated as "no filter"
(no row is removed by the substring-match step); any non-empty filter
text — whitespace-only ones included — is lower-cased and used as an
ordinary substring match (the emptiness check happens before
lower-casing). -/
theorem c3_empty_filter_is_no_filter (rows : List Row) :
    textFilteredRows rows "" = rows
    ∧ ∀ t : String, t.isEmpty = false →
        textFilteredRows rows t = rows.filter
          (fun row => strContains (toLowerStr row.entry.label) (toLowerStr t)) := by
  constructor
  · unfold textFilteredRows
    refine List.filter_eq_self.2 (fun a _ => ?_)
    have h0 : ("" : String).isEmpty = true := by decide
    simp [h0]
  · intro t ht
    unfold textFilteredRows
    refine List.filter_congr (fun a _ => ?_)
    simp [ht]

/-- C3 witness: the amended substring behaviour at the whitespace-only
filter text `" "`. -/
theorem c3_empty_filter_is_no_filter_witness :
    textFilteredRows [sampleRow "a"] " " = [sampleRow "a"].filter
      (fun row => strContains (toLowerStr row.entry.label) (toLowerStr " ")) :=
  (c3_empty_filter_is_no_filter [sampleRow "a"]).2 " " (by decide)

/-- C4: the output of `filteredRows` is a sublist of its input (no
reordering, no new rows), and every retained row's lower-cased label
contains the lower-cased filter text as a substring. -/
theorem c4_filter_sublist_and_match (rows : List Row) (t : String)
    (hidden : List String) (ps pl : MetadataEntryF → Bool) (b : Bool) :
    List.Sublist (filteredRows rows t hidden ps pl b) rows
    ∧ ∀ r ∈ filteredRows rows t hidden ps pl b,
        strContains (toLowerStr r.entry.label) (toLowerStr t) = true := by
  constructor
  · exact (List.filter_sublist _).trans (List.filter_sublist _)
  · intro r hr
    have h1 : r ∈ textFilteredRows rows t := (List.mem_filter.1 hr).1
    have h2 := (List.mem_filter.1 h1).2
    simp only [Bool.or_eq_true] at h2
    rcases h2 with he | hc
    · have ht : t = "" := (String.isEmpty_iff t).1 he
      subst ht
      have hlow : toLowerStr "" = "" := rfl
      rw [hlow]
      exact strContains_empty _
    · exact hc

/-- C4 witness: the row labelled `"ab"` survives the filter text `"B"`
and indeed matches it case-insensitively. -/
theorem c4_filter_sublist_and_match_witness :
    strContains (toLowerStr (sampleRow "ab").entry.label) (toLowerStr "B") = true :=
  (c4_filter_sublist_and_match [sampleRow "ab"] "B" []
      (fun _ => false) (fun _ => false) false).2 (sampleRow "ab") (by decide)

/-- C5: no row of `filteredRows` has its label in the hidden-label set
(regardless of the filter text), none is a column-lineage entry, and,
when the hide-schema flag is set, none is a column-schema entry. -/
theorem c5_exclusions (rows : List Row) (t : String) (hidden : List String)
    (ps pl : MetadataEntryF → Bool) (b : Bool) :
    ∀ r ∈ filteredRows rows t hidden ps pl b,
      hidden.contains r.entry.label = false
      ∧ pl r.entry = false
      ∧ (b = true → ps r.entry = false) := by
  intro r hr
  have h2 := (List.mem_filter.1 hr).2
  unfold exclusionPred at h2
  simp only [Bool.and_eq_true, Bool.not_eq_true'] at h2
  refine ⟨h2.1.1, h2.2, fun hb => ?_⟩
  have hps := h2.1.2
  rw [hb] at hps
  simpa using hps

/-- C5 witness: a surviving row at a concrete hidden-label set and
structural predicates. -/
theorem c5_exclusions_witness :
    (["h"] : List String).contains (sampleRow "x").entry.label = false
    ∧ (fun _ : MetadataEntryF => false) (sampleRow "x").entry = false
    ∧ (false = true → (fun _ : MetadataEntryF => true) (sampleRow "x").entry = false) :=
  c5_exclusions [sampleRow "x"] "" ["h"] (fun _ => true) (fun _ => false) false
    (sampleRow "x") (by decide)

/-- C9: applying the filter twice with the same arguments equals applying
it once. -/
theorem c9_filter_idempotent (rows : List Row) (t : String) (hidden : List String)
    (ps pl : MetadataEntryF → Bool) (b : Bool) :
    filteredRows (filteredRows rows t hidden ps pl b) t hidden ps pl b =
      filteredRows rows t hidden ps pl b := by
  unfold filteredRows textFilteredRows
  simp only [List.filter_filter]
  refine List.filter_congr (fun a _ => ?_)
  cases h1 : (t.isEmpty || strContains (toLowerStr a.entry.label) (toLowerStr t)) <;>
    cases h2 : exclusionPred hidden ps pl b a <;>
      simp [h1, h2]

/-- C6: `paginate rows n` returns exactly the first `min n rows.length`
rows and the remainder `rows.length - n` (truncated subtraction, i.e.
`max 0 (len − n)`); with the "show all" sentinel it returns all rows and
remainder `0` (JS array lengths never exceed the sentinel). -/
theorem c6_paginate_clamp (rows : List Row) (n : Nat)
    (h : rows.length ≤ maxSafeInteger) :
    (paginate rows n).1 = rows.take n
    ∧ (paginate rows n).1.length = min n rows.length
    ∧ (paginate rows n).2 = rows.length - n
    ∧ paginate rows maxSafeInteger = (rows, 0) := by
  refine ⟨rfl, by simp [paginate], ?_, ?_⟩
  · unfold paginate
    dsimp only
    split
    · rfl
    · omega
  · unfold paginate
    rw [List.take_of_length_le h, if_neg (by omega)]

/-- C6 witness: two rows, `n = 1`, and the sentinel. -/
theorem c6_paginate_clamp_witness :
    ([sampleRow "a", sampleRow "b"] : List Row).length ≤ maxSafeInteger
    ∧ ((paginate [sampleRow "a", sampleRow "b"] 1).1 =
          [sampleRow "a", sampleRow "b"].take 1
      ∧ (paginate [sampleRow "a", sampleRow "b"] 1).1.length =
          min 1 ([sampleRow "a", sampleRow "b"] : List Row).length
      ∧ (paginate [sampleRow "a", sampleRow "b"] 1).2 =
          ([sampleRow "a", sampleRow "b"] : List Row).length - 1
      ∧ paginate [sampleRow "a", sampleRow "b"] maxSafeInteger =
          ([sampleRow "a", sampleRow "b"], 0)) :=
  ⟨by decide, c6_paginate_clamp [sampleRow "a", sampleRow "b"] 1 (by decide)⟩

/-- C7: if the merged (pre-filter) sequence is empty and an empty-state
representation was supplied, the component yields it verbatim (in
particular for all-null inputs); if the merged sequence is non-empty but
the filtered sequence is empty, a table with the "No metadata entries"
placeholder row is yielded instead. -/
theorem c7_empty_state_policy {α : Type} (event : Option TableEventF)
    (observations : Option (List TableEventF)) (dm : Option (List MetadataEntryF))
    (dts : Option TimeVal) (t : String) (hidden : List String)
    (ps pl : MetadataEntryF → Bool) (b : Bool) (dc : Nat) (es : α) :
    (allRows event observations dm dts = [] →
        renderTable event observations dm dts t hidden ps pl b (some es) dc =
          RenderOutcome.emptyStateView es)
    ∧ (∀ esOpt : Option α, allRows event observations dm dts ≠ [] →
        filteredRows (allRows event observations dm dts) t hidden ps pl b = [] →
        renderTable event observations dm dts t hidden ps pl b esOpt dc =
          RenderOutcome.table [] true)
    ∧ renderTable none none none dts t hidden ps pl b (some es) dc =
        RenderOutcome.emptyStateView es := by
  refine ⟨?_, ?_, ?_⟩
  · intro h
    simp [renderTable, h]
  · intro esOpt hne hf
    cases esOpt with
    | none => simp [renderTable, hf]
    | some es2 => simp [renderTable, hf, hne]
  · have h0 : allRows none none none dts = [] := rfl
    simp [renderTable, h0]

/-- C7 witness: all-null inputs with an empty state supplied. -/
theorem c7_empty_state_policy_witness :
    renderTable (α := String) none none none none "" []
        (fun _ => false) (fun _ => false) false (some "empty") 100 =
      RenderOutcome.emptyStateView "empty" :=
  (c7_empty_state_policy none none none none "" [] (fun _ => false)
      (fun _ => false) false 100 "empty").1 rfl

/-- C8: `displayedCount` starts at the caller-supplied default, a "show
more" action jumps straight to the sentinel and a "show less" action
resets to the default, with no intermediate states; with 150 filtered
rows and a default of 100 the prefix/remainder sequence is 100/50,
then 150/0 after "show more", then 100/50 after "show less". -/
theorem c8_show_more_less (d : Nat) (rows : List Row) (h : rows.length = 150) :
    initialDisplayedCount d = d
    ∧ (∀ c, applyShowAction d c ShowAction.more = maxSafeInteger)
    ∧ (∀ c, applyShowAction d c ShowAction.less = d)
    ∧ (paginate rows (initialDisplayedCount 100)).1.length = 100
    ∧ (paginate rows (initialDisplayedCount 100)).2 = 50
    ∧ (paginate rows (applyShowAction 100 (initialDisplayedCount 100)
        ShowAction.more)).1.length = 150
    ∧ (paginate rows (applyShowAction 100 (initialDisplayedCount 100)
        ShowAction.more)).2 = 0
    ∧ (paginate rows (applyShowAction 100 (applyShowAction 100
        (initialDisplayedCount 100) ShowAction.more) ShowAction.less)).1.length = 100
    ∧ (paginate rows (applyShowAction 100 (applyShowAction 100
        (initialDisplayedCount 100) ShowAction.more) ShowAction.less)).2 = 50 := by
  refine ⟨rfl, fun c => rfl, fun c => rfl, ?_, ?_, ?_, ?_, ?_, ?_⟩ <;>
    simp [paginate, initialDisplayedCount, applyShowAction, maxSafeInteger, h]

/-- C8 witness: 150 concrete rows, default 7 for the generic part. -/
theorem c8_show_more_less_witness :
    (List.replicate 150 (sampleRow "a")).length = 150
    ∧ (initialDisplayedCount 7 = 7
      ∧ (∀ c, applyShowAction 7 c ShowAction.more = maxSafeInteger)
      ∧ (∀ c, applyShowAction 7 c ShowAction.less = 7)
      ∧ (paginate (List.replicate 150 (sampleRow "a"))
          (initialDisplayedCount 100)).1.length = 100
      ∧ (paginate (List.replicate 150 (sampleRow "a"))
          (initialDisplayedCount 100)).2 = 50
      ∧ (paginate (List.replicate 150 (sampleRow "a"))
          (applyShowAction 100 (initialDisplayedCount 100) ShowAction.more)).1.length = 150
      ∧ (paginate (List.replicate 150 (sampleRow "a"))
          (applyShowAction 100 (initialDisplayedCount 100) ShowAction.more)).2 = 0
      ∧ (paginate (List.replicate 150 (sampleRow "a"))
          (applyShowAction 100 (applyShowAction 100 (initialDisplayedCount 100)
            ShowAction.more) ShowAction.less)).1.length = 100
      ∧ (paginate (List.replicate 150 (sampleRow "a"))
          (applyShowAction 100 (applyShowAction 100 (initialDisplayedCount 100)
            ShowAction.more) ShowAction.less)).2 = 50) :=
  ⟨by simp, c8_show_more_less 7 (List.replicate 150 (sampleRow "a")) (by simp)⟩

/-- C10: every merged row derived from the current event or from
definition metadata has a null run identifier (even when the event input
carries a `runId`); only observation-derived rows carry one, namely their
source observation's. -/
theorem c10_runId_provenance (event : Option TableEventF)
    (observations : Option (List TableEventF)) (dm : Option (List MetadataEntryF))
    (dts : Option TimeVal) :
    ∀ r ∈ allRows event observations dm dts,
      ((r.icon = RowIcon.materialization ∨ r.icon = RowIcon.asset) → r.runId = none)
      ∧ (r.icon = RowIcon.observation →
          ∃ o ∈ observations.getD [], r.runId = o.runId ∧ r.entry ∈ o.metadataEntries) := by
  intro r hr
  have hmem : r ∈ concatRows event observations dm dts :=
    (allRows_sublist_concatRows event observations dm dts).subset hr
  unfold concatRows at hmem
  rcases List.mem_append.1 hmem with hoe | hdef
  · rcases List.mem_append.1 hoe with hobs | hev
    · have hoo := mem_observationRows hobs
      refine ⟨fun hic => ?_, fun _ => hoo.2⟩
      rcases hic with h1 | h1 <;> simp [hoo.1] at h1
    · have hee := mem_eventRows hev
      refine ⟨fun _ => hee.2, fun hic => ?_⟩
      simp [hee.1] at hic
  · have hdd := mem_definitionRows hdef
    refine ⟨fun _ => hdd.2, fun hic => ?_⟩
    simp [hdd.1] at hic

/-- C10 witness: an event carrying `runId = some "r1"` still yields a row
with a null run identifier. -/
theorem c10_runId_provenance_witness :
    ((({ icon := RowIcon.materialization, entry := sampleEntry "a" } : Row).icon =
          RowIcon.materialization
        ∨ ({ icon := RowIcon.materialization, entry := sampleEntry "a" } : Row).icon =
          RowIcon.asset) →
      ({ icon := RowIcon.materialization, entry := sampleEntry "a" } : Row).runId = none)
    ∧ (({ icon := RowIcon.materialization, entry := sampleEntry "a" } : Row).icon =
          RowIcon.observation →
        ∃ o ∈ (none : Option (List TableEventF)).getD [],
          ({ icon := RowIcon.materialization, entry := sampleEntry "a" } : Row).runId =
              o.runId
            ∧ ({ icon := RowIcon.materialization, entry := sampleEntry "a" } : Row).entry ∈
              o.metadataEntries) :=
  c10_runId_provenance
    (some { runId := some "r1", metadataEntries := [sampleEntry "a"] }) none none none
    { icon := RowIcon.materialization, entry := sampleEntry "a" } (by decide)

end AssetEventMetadata
